import Mathlib

/-!
Shallow embedding of the client-side persisted history store and the
upload / inference pipeline of the repository (src/src/lib/upload.tsx and
the two page components).

Browser localStorage is modelled as a map from keys to raw stored values.
A raw stored value is either text that fails JSON.parse (`notJson`), JSON
that parses but is not an array of schema-shaped records (`badShape`), or
an array of schema-shaped records (`arr xs`) whose elements may still fail
the format-level checks of the zod validator (e.g. `createdAt` not a valid
datetime).  The zod validator `z.array(...)` is modelled by an element
predicate `p : α → Bool`: validation of a stored collection succeeds iff
every element satisfies `p`.
-/

namespace ApiMarket

/-- Raw value held in localStorage under one key, as seen through
JSON.parse and the zod array validator. -/
inductive Raw (α : Type) where
  | notJson : Raw α
  | badShape : Raw α
  | arr : List α → Raw α
deriving DecidableEq

/-- localStorage: a partial map from string keys to raw stored values. -/
def Store (α : Type) : Type := String → Option (Raw α)

def emptyStore {α : Type} : Store α := fun _ => none

/-- localStorage.setItem -/
def setItem {α : Type} (st : Store α) (k : String) (v : Raw α) : Store α :=
  fun k2 => if k2 = k then some v else st k2

/-- localStorage.removeItem -/
def removeItem {α : Type} (st : Store α) (k : String) : Store α :=
  fun k2 => if k2 = k then none else st k2

/-- `getFromStorage` from src/src/lib/upload.tsx (lines 78-101).
Returns the list the TS function returns, paired with the localStorage
state after the call (the function removes the entry on corruption). -/
def getFromStorage {α : Type} (p : α → Bool) (st : Store α) (k : String) :
    List α × Store α :=
  match st k with
  | none => ([], st)
  | some Raw.notJson => ([], removeItem st k)
  | some Raw.badShape => ([], removeItem st k)
  | some (Raw.arr xs) =>
      if xs.all p then (xs, st) else ([], removeItem st k)

/-- `saveToStorage` from src/src/lib/upload.tsx (lines 62-76).
`writeOk` is true when `localStorage.setItem` succeeds; when it throws
(e.g. quota exceeded) the catch branch returns `[item]` and the store is
left as the internal read left it. -/
def saveToStorage {α : Type} (p : α → Bool) (writeOk : Bool) (st : Store α)
    (k : String) (item : α) : List α × Store α :=
  let r := getFromStorage p st k
  let newItems := item :: r.1
  if writeOk then (newItems, setItem r.2 k (Raw.arr newItems))
  else ([item], r.2)

/-- JS index normalisation used by Array.prototype.slice: a negative index
counts from the end (clamped at 0), a non-negative one is clamped at the
length. -/
def jsIndex (len : Nat) (i : Int) : Nat :=
  if i < 0 then ((len : Int) + i).toNat else min i.toNat len

/-- `items.slice(start, stop)` in JS. -/
def jsSlice {α : Type} (xs : List α) (start stop : Int) : List α :=
  (xs.take (jsIndex xs.length stop)).drop (jsIndex xs.length start)

/-- `items.slice(start)` in JS (end defaults to the length). -/
def jsSliceFrom {α : Type} (xs : List α) (start : Int) : List α :=
  xs.drop (jsIndex xs.length start)

/-- `removeFromStorage` from src/src/lib/upload.tsx (lines 103-117).
On write failure the catch branch re-reads and returns the stored
sequence. -/
def removeFromStorage {α : Type} (p : α → Bool) (writeOk : Bool)
    (st : Store α) (k : String) (index : Int) : List α × Store α :=
  let r := getFromStorage p st k
  let newItems := jsSlice r.1 0 index ++ jsSliceFrom r.1 (index + 1)
  if writeOk then (newItems, setItem r.2 k (Raw.arr newItems))
  else getFromStorage p r.2 k

/-- Write a sequence of records one at a time via `saveToStorage`
(all underlying writes succeeding), left to right. -/
def appendAll {α : Type} (p : α → Bool) (st : Store α) (k : String)
    (rs : List α) : Store α :=
  rs.foldl (fun s r => (saveToStorage p true s k r).2) st

/-- Repeatedly remove index 0, n times. -/
def drain {α : Type} (p : α → Bool) (st : Store α) (k : String) :
    Nat → Store α
  | 0 => st
  | n + 1 => drain p (removeFromStorage p true st k 0).2 k n

/-! ## Remote capability client -/

/-- `response.ok` of fetch: the HTTP status is in the success range. -/
def isSuccessStatus (status : Nat) : Bool :=
  200 ≤ status && status ≤ 299

/-- JS falsiness of an optional string field (`!data.result`):
true when the field is missing/undefined or the empty string. -/
def jsFalsyStr : Option String → Bool
  | none => true
  | some s => s = ""

/-- JS truthiness of an optional string field (`data.error` as a
condition): false when absent/null or empty, true otherwise. -/
def jsTruthyStr (o : Option String) : Bool := !jsFalsyStr o

/-- JS `e || d` for an optional string `e` and default string `d`. -/
def jsOrStr (e : Option String) (d : String) : String :=
  match e with
  | some s => if s = "" then d else s
  | none => d

/-- Parsed JSON body of the upload endpoint (`UploadResponse` in
src/src/lib/upload.tsx); `result` is `none` when the field is missing. -/
structure UploadResp where
  status : String
  result : Option String
deriving DecidableEq

/-- `uploadImage` from src/src/lib/upload.tsx (lines 8-33), as a function
of the server response: the HTTP status code and the parsed JSON body.
`Except.error` is the thrown Error's message. -/
def uploadImage (status : Nat) (body : UploadResp) : Except String String :=
  if !isSuccessStatus status then
    .error ("Upload failed: " ++ toString status)
  else if body.status ≠ "OK" || jsFalsyStr body.result then
    .error "Upload failed: Invalid response"
  else .ok (body.result.getD "")

/-- Parsed JSON body of the age-detector endpoint (`AgeDetectionResponse`
in src/unnamed/part_000); `error` is `none` when absent/null and
`predict_time` is `metrics.predict_time`. -/
structure AgeDetectionResponse where
  output : String
  status : String
  error : Option String
  predict_time : Rat
deriving DecidableEq

/-- `AgeDetectionResult` in src/unnamed/part_000 (lines 306-310). -/
structure AgeDetectionResult where
  age : String
  predictTime : Rat
  imageData : String
deriving DecidableEq

/-- `detectAge` from src/unnamed/part_000 (lines 363-399), as a function
of the component's `imageData` state (a nullable string) and the server
response.  `Except.error` is the thrown Error's message. -/
def detectAge (imageData : Option String) (status : Nat)
    (body : AgeDetectionResponse) : Except String AgeDetectionResult :=
  if !isSuccessStatus status then
    .error ("Detection failed: " ++ toString status)
  else if body.status ≠ "succeeded" || jsTruthyStr body.error then
    .error (jsOrStr body.error "Detection failed")
  else if jsFalsyStr imageData then
    .error "Image data is missing"
  else .ok ⟨body.output, body.predict_time, imageData.getD ""⟩

/-! ## Feature orchestrators -/

def STORAGE_KEY : String := "magicapi_screenshot"
def AGE_DETECTION_STORAGE_KEY : String := "magicapi_age_detection"

/-- `AgeDetectionHistoryItem` (src/src/lib/upload.tsx lines 49-56). -/
structure AgeDetectionHistoryItem where
  age : String
  predictTime : Rat
  imageData : String
  createdAt : String
deriving DecidableEq

/-- `ScreenshotItem` (src/src/lib/upload.tsx lines 39-45). -/
structure ScreenshotItem where
  input : String
  imageData : String
  createdAt : String
deriving DecidableEq

inductive ProcessingState where
  | idle | uploading | processing | success | error
deriving DecidableEq

inductive ScreenshotState where
  | idle | loading | success | error
deriving DecidableEq

/-- `processImage` from src/unnamed/part_000 (lines 401-436), as a
function of the component state (history store, cached uploaded url,
`imageData`) and the two server responses; `now` is the
`new Date().toISOString()` stamp and `p` the age-detection validator.
Returns the localStorage state and the terminal `ProcessingState`. -/
def processImage (p : AgeDetectionHistoryItem → Bool) (writeOk : Bool)
    (st : Store AgeDetectionHistoryItem)
    (cachedUrl : Option String) (imageData : Option String)
    (upStatus : Nat) (upBody : UploadResp)
    (detStatus : Nat) (detBody : AgeDetectionResponse)
    (now : String) : Store AgeDetectionHistoryItem × ProcessingState :=
  let urlRes : Except String String :=
    match cachedUrl with
    | some u => .ok u
    | none => uploadImage upStatus upBody
  match urlRes with
  | .error _ => (st, .error)
  | .ok _ =>
    match detectAge imageData detStatus detBody with
    | .error _ => (st, .error)
    | .ok r =>
      let item : AgeDetectionHistoryItem :=
        ⟨r.age, r.predictTime, r.imageData, now⟩
      ((saveToStorage p writeOk st AGE_DETECTION_STORAGE_KEY item).2,
       .success)

/-- `captureScreenshot` from src/unnamed/part_001 (lines 92-139), as a
function of the component state and the server response (`status` plus
the base64 encoding of the returned blob); `now` is the timestamp and
`p` the screenshot validator.  The early guard (`!isValidUrl ||
!apiKey.trim()`) returns without any state change. -/
def captureScreenshot (p : ScreenshotItem → Bool) (writeOk : Bool)
    (st : Store ScreenshotItem) (validUrl : Bool) (apiKey : String)
    (status : Nat) (blobB64 : String) (url now : String) :
    Store ScreenshotItem × ScreenshotState :=
  if !validUrl || apiKey.trim = "" then (st, .idle)
  else if !isSuccessStatus status then (st, .error)
  else
    let item : ScreenshotItem := ⟨url, blobB64, now⟩
    ((saveToStorage p writeOk st STORAGE_KEY item).2, .success)

/-! ## Store lemmas -/

/-- A raw stored value on which the read path fails: unparseable text,
JSON of the wrong shape, or an array with some element failing the
validator. -/
def rawCorrupt {α : Type} (p : α → Bool) : Raw α → Bool
  | Raw.notJson => true
  | Raw.badShape => true
  | Raw.arr xs => !xs.all p

lemma getFromStorage_none {α : Type} (p : α → Bool) (st : Store α)
    (k : String) (h : st k = none) : getFromStorage p st k = ([], st) := by
  simp [getFromStorage, h]

lemma getFromStorage_arr_valid {α : Type} (p : α → Bool) (st : Store α)
    (k : String) (xs : List α) (h : st k = some (Raw.arr xs))
    (hv : xs.all p = true) : getFromStorage p st k = (xs, st) := by
  simp [getFromStorage, h, hv]

lemma removeItem_self {α : Type} (st : Store α) (k : String) :
    removeItem st k k = none := by
  simp [removeItem]

lemma setItem_self {α : Type} (st : Store α) (k : String) (v : Raw α) :
    setItem st k v k = some v := by
  simp [setItem]

lemma mem_getFromStorage {α : Type} (p : α → Bool) (st : Store α)
    (k : String) : ∀ x ∈ (getFromStorage p st k).1, p x = true := by
  intro x hx
  unfold getFromStorage at hx
  cases h : st k with
  | none => simp [h] at hx
  | some r =>
    cases r with
    | notJson => simp [h] at hx
    | badShape => simp [h] at hx
    | arr xs =>
      rw [h] at hx
      by_cases hv : xs.all p = true
      · simp [hv] at hx
        exact (List.all_eq_true.mp hv) x hx
      · simp [hv] at hx

/-! ## Claim theorems: the persisted history store -/

/-- C2: Self-healing read.  For every key, if the stored raw text is
absent, `getFromStorage` returns an empty sequence (and leaves the store
unchanged); if it is present but not parseable as JSON, or parseable but
failing schema validation (including an array with a single invalid
element), `getFromStorage` deletes the stored entry and returns an empty
sequence, so a second read also returns empty. -/
theorem read_self_healing {α : Type} (p : α → Bool) (st : Store α)
    (k : String) :
    (st k = none → getFromStorage p st k = ([], st)) ∧
    (∀ r, st k = some r → rawCorrupt p r = true →
      (getFromStorage p st k).1 = [] ∧
      (getFromStorage p st k).2 k = none ∧
      (getFromStorage p (getFromStorage p st k).2 k).1 = []) := by
  constructor
  · intro h
    exact getFromStorage_none p st k h
  · intro r hr hcor
    cases r with
    | notJson =>
      refine ⟨by simp [getFromStorage, hr], ?_, ?_⟩
      · simp [getFromStorage, hr, removeItem_self]
      · simp [getFromStorage, hr, removeItem_self]
    | badShape =>
      refine ⟨by simp [getFromStorage, hr], ?_, ?_⟩
      · simp [getFromStorage, hr, removeItem_self]
      · simp [getFromStorage, hr, removeItem_self]
    | arr xs =>
      have hv : ¬ xs.all p = true := by
        simpa [rawCorrupt] using hcor
      refine ⟨by simp [getFromStorage, hr, hv], ?_, ?_⟩
      · simp [getFromStorage, hr, hv, removeItem_self]
      · simp [getFromStorage, hr, hv, removeItem_self]

/-- C2 witness: concrete corrupted entry (an array with one invalid
element) is wiped and both reads return empty. -/
theorem read_self_healing_witness :
    (getFromStorage (fun n : Nat => n != 0) emptyStore "fresh" =
      ([], emptyStore)) ∧
    ((getFromStorage (fun n : Nat => n != 0)
        (setItem emptyStore "k" (Raw.arr [1, 0])) "k").1 = [] ∧
      (getFromStorage (fun n : Nat => n != 0)
        (setItem emptyStore "k" (Raw.arr [1, 0])) "k").2 "k" = none ∧
      (getFromStorage (fun n : Nat => n != 0)
        (getFromStorage (fun n : Nat => n != 0)
          (setItem emptyStore "k" (Raw.arr [1, 0])) "k").2 "k").1 = []) :=
  ⟨(read_self_healing (fun n : Nat => n != 0) emptyStore "fresh").1 rfl,
   (read_self_healing (fun n : Nat => n != 0)
      (setItem emptyStore "k" (Raw.arr [1, 0])) "k").2
     (Raw.arr [1, 0]) (by simp [setItem]) (by decide)⟩

/-- C7: Append write-failure fallback.  For every key and record, if the
underlying `localStorage.setItem` fails during `saveToStorage`, the
operation returns a single-element sequence containing only the new
record (the function is total, so no exception reaches the caller). -/
theorem save_write_failure_fallback {α : Type} (p : α → Bool)
    (st : Store α) (k : String) (item : α) :
    (saveToStorage p false st k item).1 = [item] := by
  simp [saveToStorage]

/-- C8: A record failing schema validation is never observable via a
read: no `getFromStorage` result contains it, in particular not after a
`saveToStorage` of that record (it is filtered out on retrieval as
corrupted data). -/
theorem invalid_record_never_read {α : Type} (p : α → Bool) (r : α)
    (hr : p r = false) (wOk : Bool) (st : Store α) (k k2 : String) :
    r ∉ (getFromStorage p st k).1 ∧
    r ∉ (getFromStorage p (saveToStorage p wOk st k r).2 k2).1 := by
  constructor
  · intro hmem
    have := mem_getFromStorage p st k r hmem
    rw [hr] at this
    exact Bool.false_ne_true this
  · intro hmem
    have := mem_getFromStorage p (saveToStorage p wOk st k r).2 k2 r hmem
    rw [hr] at this
    exact Bool.false_ne_true this

/-- C8 witness: the invalid record 0 (validator `n != 0`) is not
readable after being appended. -/
theorem invalid_record_never_read_witness :
    (0 : Nat) ∉ (getFromStorage (fun n : Nat => n != 0) emptyStore "k").1 ∧
    (0 : Nat) ∉ (getFromStorage (fun n : Nat => n != 0)
      (saveToStorage (fun n : Nat => n != 0) true emptyStore "k" 0).2
      "k").1 :=
  invalid_record_never_read (fun n : Nat => n != 0) 0 (by decide)
    true emptyStore "k" "k"

/-- C10: `saveToStorage` does not validate the record it is given: for
every record, valid or not, it persists it and returns a sequence whose
head is that record; the validator only touches the previously stored
content through the internal read. -/
theorem append_unvalidated {α : Type} (p : α → Bool) (st : Store α)
    (k : String) (r : α) :
    (saveToStorage p true st k r).1 = r :: (getFromStorage p st k).1 ∧
    (saveToStorage p true st k r).2 k =
      some (Raw.arr (r :: (getFromStorage p st k).1)) := by
  constructor
  · simp [saveToStorage]
  · simp [saveToStorage, setItem_self]

lemma appendAll_cons {α : Type} (p : α → Bool) (st : Store α) (k : String)
    (r : α) (rs : List α) :
    appendAll p st k (r :: rs) =
      appendAll p (saveToStorage p true st k r).2 k rs := by
  simp [appendAll, List.foldl]

lemma appendAll_inv {α : Type} (p : α → Bool) (rs : List α) :
    ∀ (st : Store α) (k : String) (acc : List α), acc.all p = true →
      st k = some (Raw.arr acc) → rs.all p = true →
      appendAll p st k rs k = some (Raw.arr (rs.reverse ++ acc)) := by
  induction rs with
  | nil =>
    intro st k acc _ hst _
    simpa [appendAll] using hst
  | cons r rs ih =>
    intro st k acc hacc hst hall
    have hp : p r = true := by
      simp [List.all_cons] at hall
      exact hall.1
    have hrs : rs.all p = true := by
      simp [List.all_cons] at hall
      exact List.all_eq_true.mpr hall.2
    have hget : getFromStorage p st k = (acc, st) :=
      getFromStorage_arr_valid p st k acc hst hacc
    have hsave : (saveToStorage p true st k r).2 =
        setItem st k (Raw.arr (r :: acc)) := by
      simp [saveToStorage, hget]
    rw [appendAll_cons, hsave]
    have hacc2 : (r :: acc).all p = true := by
      simp [List.all_cons, hp, hacc]
    have hst2 : setItem st k (Raw.arr (r :: acc)) k =
        some (Raw.arr (r :: acc)) := setItem_self st k _
    have := ih (setItem st k (Raw.arr (r :: acc))) k (r :: acc) hacc2 hst2 hrs
    rw [this]
    simp

/-- C1: Round-trip of the store.  For every key with no stored entry and
every sequence of schema-valid records written one at a time via
`saveToStorage`, a subsequent `getFromStorage` with the same key returns
exactly those records, most-recent-first (the reverse of the write
order: each new record goes to the head). -/
theorem append_read_roundtrip {α : Type} (p : α → Bool) (st : Store α)
    (k : String) (rs : List α) (hst : st k = none)
    (hall : rs.all p = true) :
    (getFromStorage p (appendAll p st k rs) k).1 = rs.reverse := by
  cases rs with
  | nil =>
    simp [appendAll, getFromStorage, hst]
  | cons r rs =>
    have hp : p r = true := by
      simp [List.all_cons] at hall
      exact hall.1
    have hrs : rs.all p = true := by
      simp [List.all_cons] at hall
      exact List.all_eq_true.mpr hall.2
    have hget : getFromStorage p st k = ([], st) :=
      getFromStorage_none p st k hst
    have hsave : (saveToStorage p true st k r).2 =
        setItem st k (Raw.arr [r]) := by
      simp [saveToStorage, hget]
    have hst2 : setItem st k (Raw.arr [r]) k = some (Raw.arr [r]) :=
      setItem_self st k _
    have hfinal := appendAll_inv p rs (setItem st k (Raw.arr [r])) k [r]
      (by simp [hp]) hst2 hrs
    rw [appendAll_cons, hsave]
    have hallrev : (rs.reverse ++ [r]).all p = true := by
      simp [List.all_append, List.all_reverse, hp, hrs]
    rw [getFromStorage_arr_valid p _ k (rs.reverse ++ [r]) hfinal hallrev]
    simp

/-- C1 witness: writing [1, 2, 3] into a fresh key reads back as
[3, 2, 1]. -/
theorem append_read_roundtrip_witness :
    (getFromStorage (fun n : Nat => n != 0)
      (appendAll (fun n : Nat => n != 0) emptyStore "k" [1, 2, 3])
      "k").1 = [3, 2, 1] :=
  append_read_roundtrip (fun n : Nat => n != 0) emptyStore "k" [1, 2, 3]
    rfl (by decide)

lemma jsIndex_cast (len n : Nat) : jsIndex len (n : Int) = min n len := by
  unfold jsIndex
  split
  · omega
  · omega

lemma all_take {α : Type} (p : α → Bool) (xs : List α)
    (h : xs.all p = true) (i : Nat) : (xs.take i).all p = true := by
  rw [List.all_eq_true] at h ⊢
  intro x hx
  exact h x (List.mem_of_mem_take hx)

lemma all_drop {α : Type} (p : α → Bool) (xs : List α)
    (h : xs.all p = true) (i : Nat) : (xs.drop i).all p = true := by
  rw [List.all_eq_true] at h ⊢
  intro x hx
  exact h x (List.mem_of_mem_drop hx)

lemma remove_newItems_inrange {α : Type} (xs : List α) (i : Nat)
    (hi : i < xs.length) :
    jsSlice xs 0 (i : Int) ++ jsSliceFrom xs ((i : Int) + 1) =
      xs.take i ++ xs.drop (i + 1) := by
  have hcast : ((i : Int) + 1) = ((i + 1 : Nat) : Int) := by push_cast; ring
  have h0 : jsIndex xs.length 0 = 0 := by
    rw [show (0 : Int) = ((0 : Nat) : Int) from rfl, jsIndex_cast]
    omega
  have h1 : jsIndex xs.length (i : Int) = i := by
    rw [jsIndex_cast]; omega
  have h2 : jsIndex xs.length ((i : Int) + 1) = i + 1 := by
    rw [hcast, jsIndex_cast]; omega
  simp [jsSlice, jsSliceFrom, h0, h1, h2]

lemma drain_to_empty {α : Type} (p : α → Bool) :
    ∀ (xs : List α) (st : Store α) (k : String),
      st k = some (Raw.arr xs) → xs.all p = true →
      drain p st k xs.length k = some (Raw.arr []) := by
  intro xs
  induction xs with
  | nil =>
    intro st k hst _
    simpa [drain] using hst
  | cons x t ih =>
    intro st k hst hv
    have hvt : t.all p = true := by
      simp [List.all_cons] at hv
      exact List.all_eq_true.mpr hv.2
    have hget : getFromStorage p st k = (x :: t, st) :=
      getFromStorage_arr_valid p st k _ hst hv
    have hlen : (x :: t).length = t.length + 1 := rfl
    have h0 : jsIndex (x :: t).length 0 = 0 := by
      rw [hlen]; unfold jsIndex; split <;> omega
    have h1 : jsIndex (x :: t).length 1 = 1 := by
      rw [hlen]; unfold jsIndex; split <;> omega
    have hnew : jsSlice (x :: t) 0 0 ++ jsSliceFrom (x :: t) 1 = t := by
      simp only [jsSlice, jsSliceFrom, h0, h1]
      simp
    have hrm : (removeFromStorage p true st k 0).2 =
        setItem st k (Raw.arr t) := by
      simp [removeFromStorage, hget]
      rw [hnew]
    show drain p st k (t.length + 1) k = some (Raw.arr [])
    rw [drain, hrm]
    exact ih (setItem st k (Raw.arr t)) k (setItem_self st k _) hvt

/-- C3: Remove excises exactly one element.  For every key holding a
valid stored sequence and every index in range, `removeFromStorage`
returns (and persists, as a subsequent read shows) the original sequence
with the element at that position excised and all other elements
unchanged in order; repeatedly removing index 0, length-many times,
drains the sequence to empty. -/
theorem remove_excises {α : Type} (p : α → Bool) (st : Store α)
    (k : String) (xs : List α) (hst : st k = some (Raw.arr xs))
    (hv : xs.all p = true) (i : Nat) (hi : i < xs.length) :
    (removeFromStorage p true st k (i : Int)).1 =
      xs.take i ++ xs.drop (i + 1) ∧
    (getFromStorage p (removeFromStorage p true st k (i : Int)).2 k).1 =
      xs.take i ++ xs.drop (i + 1) ∧
    (getFromStorage p (drain p st k xs.length) k).1 = [] := by
  have hget : getFromStorage p st k = (xs, st) :=
    getFromStorage_arr_valid p st k xs hst hv
  have hnew := remove_newItems_inrange xs i hi
  have hall2 : (xs.take i ++ xs.drop (i + 1)).all p = true := by
    rw [List.all_append]
    simp [all_take p xs hv i, all_drop p xs hv (i + 1)]
  refine ⟨?_, ?_, ?_⟩
  · simp [removeFromStorage, hget, hnew]
  · have h2 : (removeFromStorage p true st k (i : Int)).2 =
        setItem st k (Raw.arr (xs.take i ++ xs.drop (i + 1))) := by
      simp [removeFromStorage, hget, hnew]
    rw [h2, getFromStorage_arr_valid p _ k _ (setItem_self st k _) hall2]
  · have hdr := drain_to_empty p xs st k hst hv
    rw [getFromStorage_arr_valid p _ k [] hdr rfl]

/-- C3 witness: removing index 1 from stored [5, 6, 7] yields [5, 7]
both as return value and on a subsequent read, and draining 3 times
empties the store. -/
theorem remove_excises_witness :
    0 < 3 ∧
    ((removeFromStorage (fun n : Nat => n != 0) true
        (setItem emptyStore "k" (Raw.arr [5, 6, 7])) "k" (1 : Int)).1 =
        [5, 7] ∧
      (getFromStorage (fun n : Nat => n != 0)
        (removeFromStorage (fun n : Nat => n != 0) true
          (setItem emptyStore "k" (Raw.arr [5, 6, 7])) "k" (1 : Int)).2
        "k").1 = [5, 7] ∧
      (getFromStorage (fun n : Nat => n != 0)
        (drain (fun n : Nat => n != 0)
          (setItem emptyStore "k" (Raw.arr [5, 6, 7])) "k"
          ([5, 6, 7] : List Nat).length) "k").1 = []) :=
  ⟨by decide,
   remove_excises (fun n : Nat => n != 0)
     (setItem emptyStore "k" (Raw.arr [5, 6, 7])) "k" [5, 6, 7]
     (by simp [setItem]) (by decide) 1 (by decide)⟩

/-- C9 counterexample: with [7, 8] validly stored, removing the
out-of-range index -1 returns and persists [7, 7, 8] — the record 7 is
duplicated, so the result is not a permutation of the original
sequence, refuting the claim for negative indices. -/
theorem remove_negative_index_cex :
    (removeFromStorage (fun _ : Nat => true) true
      (setItem emptyStore "k" (Raw.arr [7, 8])) "k" (-1)).1 = [7, 7, 8] ∧
    (removeFromStorage (fun _ : Nat => true) true
      (setItem emptyStore "k" (Raw.arr [7, 8])) "k" (-1)).2 "k" =
      some (Raw.arr [7, 7, 8]) ∧
    ¬ List.Perm [7, 7, 8] [7, 8] := by
  refine ⟨by decide, by decide, by decide⟩

/-- C9 amended: out-of-range removal is non-corrupting only for indices
at or beyond the length: for every key holding a valid stored sequence
and every index ≥ length, `removeFromStorage` returns the original
records exactly (and a subsequent read agrees); for negative indices the
JS slice arithmetic can duplicate or drop records. -/
theorem remove_out_of_range_intact {α : Type} (p : α → Bool)
    (st : Store α) (k : String) (xs : List α)
    (hst : st k = some (Raw.arr xs)) (hv : xs.all p = true)
    (i : Int) (hi : (xs.length : Int) ≤ i) :
    (removeFromStorage p true st k i).1 = xs ∧
    (getFromStorage p (removeFromStorage p true st k i).2 k).1 = xs := by
  have hget : getFromStorage p st k = (xs, st) :=
    getFromStorage_arr_valid p st k xs hst hv
  have h0 : jsIndex xs.length 0 = 0 := by
    unfold jsIndex; split <;> omega
  have h1 : jsIndex xs.length i = xs.length := by
    unfold jsIndex; split <;> omega
  have h2 : jsIndex xs.length (i + 1) = xs.length := by
    unfold jsIndex; split <;> omega
  have hnew : jsSlice xs 0 i ++ jsSliceFrom xs (i + 1) = xs := by
    simp [jsSlice, jsSliceFrom, h0, h1, h2]
  constructor
  · simp [removeFromStorage, hget, hnew]
  · have h3 : (removeFromStorage p true st k i).2 =
        setItem st k (Raw.arr xs) := by
      simp [removeFromStorage, hget, hnew]
    rw [h3, getFromStorage_arr_valid p _ k xs (setItem_self st k _) hv]

/-- C9 amended witness: removing index 5 from stored [7, 8] leaves both
records intact. -/
theorem remove_out_of_range_intact_witness :
    (removeFromStorage (fun _ : Nat => true) true
      (setItem emptyStore "k" (Raw.arr [7, 8])) "k" (5 : Int)).1 =
      [7, 8] ∧
    (getFromStorage (fun _ : Nat => true)
      (removeFromStorage (fun _ : Nat => true) true
        (setItem emptyStore "k" (Raw.arr [7, 8])) "k" (5 : Int)).2
      "k").1 = [7, 8] :=
  remove_out_of_range_intact (fun _ : Nat => true)
    (setItem emptyStore "k" (Raw.arr [7, 8])) "k" [7, 8]
    (by simp [setItem]) (by decide) 5 (by decide)

/-! ## Claim theorems: the remote capability client -/

/-- C4: Upload flow contract.  `uploadImage` returns the response's
`result` field iff the HTTP status is a success status, the body's
`status` field equals "OK", and `result` is present and non-empty; in
every other case it fails with a message carrying the HTTP status code
or the descriptive message "Upload failed: Invalid response". -/
theorem upload_contract (status : Nat) (body : UploadResp) :
    (∀ r, uploadImage status body = Except.ok r ↔
      (isSuccessStatus status = true ∧ body.status = "OK" ∧
        body.result = some r ∧ r ≠ "")) ∧
    (∀ m, uploadImage status body = Except.error m →
      m = "Upload failed: " ++ toString status ∨
      m = "Upload failed: Invalid response") := by
  constructor
  · intro r
    by_cases hs : isSuccessStatus status = true
    · by_cases hok : body.status = "OK"
      · cases hres : body.result with
        | none =>
          simp [uploadImage, hs, hok, hres, jsFalsyStr]
        | some s =>
          by_cases hse : s = ""
          · subst hse
            simp [uploadImage, hs, hok, hres, jsFalsyStr]
            exact fun h => h.symm
          · simp [uploadImage, hs, hok, hres, jsFalsyStr, hse]
            intro h
            subst h
            exact hse
      · simp [uploadImage, hs, hok]
    · simp [uploadImage, hs]
  · intro m h
    unfold uploadImage at h
    by_cases hs : isSuccessStatus status = true
    · rw [hs] at h
      simp only [Bool.not_true, Bool.false_eq_true, if_false] at h
      by_cases hc : (body.status ≠ "OK" || jsFalsyStr body.result) = true
      · rw [if_pos hc] at h
        right
        exact (Except.error.inj h).symm
      · rw [if_neg hc] at h
        exact absurd h (by simp)
    · rw [Bool.not_eq_true] at hs
      rw [hs] at h
      simp only [Bool.not_false, if_true] at h
      left
      exact (Except.error.inj h).symm

/-- C4 witness: a 200 response with body {status: "OK", result:
"abc123"} makes the upload succeed with "abc123". -/
theorem upload_contract_witness :
    uploadImage 200 ⟨"OK", some "abc123"⟩ = Except.ok "abc123" :=
  ((upload_contract 200 ⟨"OK", some "abc123"⟩).1 "abc123").mpr
    ⟨by decide, rfl, rfl, by decide⟩

/-- C5 counterexample: the claim's "error field is absent/null" success
condition is refuted by a present-but-empty `error` field: on a 200
response with body {status: "succeeded", output: "34", error: "",
metrics: {predict_time: 6/5}} the code succeeds (the JS check
`data.error` treats the empty string as falsy) even though `error` is
neither absent nor null. -/
theorem detect_empty_error_cex :
    detectAge (some "img") 200 ⟨"34", "succeeded", some "", 6 / 5⟩ =
      Except.ok ⟨"34", 6 / 5, "img"⟩ ∧
    (AgeDetectionResponse.error ⟨"34", "succeeded", some "", 6 / 5⟩ =
        some "" ∧
      some "" ≠ (none : Option String)) := by
  exact ⟨rfl, rfl, by decide⟩

/-- C5 amended: with the input image data present (non-empty), the
age-detection submission succeeds iff the HTTP status is a success
status, the body's `status` equals "succeeded", and the `error` field is
JS-falsy (absent, null, or the empty string); on success it produces
{age: output, predictTime: metrics.predict_time} together with the
encoded input image data; otherwise it fails with the remote error
message, "Detection failed", or the HTTP status. -/
theorem detect_contract (d : String) (hd : d ≠ "") (status : Nat)
    (body : AgeDetectionResponse) :
    (∀ r, detectAge (some d) status body = Except.ok r ↔
      (isSuccessStatus status = true ∧ body.status = "succeeded" ∧
        jsTruthyStr body.error = false ∧
        r = ⟨body.output, body.predict_time, d⟩)) ∧
    (∀ m, detectAge (some d) status body = Except.error m →
      m = "Detection failed: " ++ toString status ∨
      m = jsOrStr body.error "Detection failed") := by
  constructor
  · intro r
    by_cases hs : isSuccessStatus status = true
    · by_cases hok : body.status = "succeeded"
      · by_cases herr : jsTruthyStr body.error = true
        · simp [detectAge, hs, hok, herr]
        · rw [Bool.not_eq_true] at herr
          have hfal : jsFalsyStr (some d) = false := by
            simp [jsFalsyStr, hd]
          simp [detectAge, hs, hok, herr, hfal]
          exact eq_comm
      · simp [detectAge, hs, hok]
    · simp [detectAge, hs]
  · intro m h
    unfold detectAge at h
    by_cases hs : isSuccessStatus status = true
    · rw [hs] at h
      simp only [Bool.not_true, Bool.false_eq_true, if_false] at h
      by_cases hc : (body.status ≠ "succeeded" || jsTruthyStr body.error)
          = true
      · rw [if_pos hc] at h
        right
        exact (Except.error.inj h).symm
      · rw [if_neg hc] at h
        have hfal : jsFalsyStr (some d) = false := by
          simp [jsFalsyStr, hd]
        rw [hfal] at h
        simp only [Bool.false_eq_true, if_false] at h
        exact absurd h (by simp)
    · rw [Bool.not_eq_true] at hs
      rw [hs] at h
      simp only [Bool.not_false, if_true] at h
      left
      exact (Except.error.inj h).symm

/-- C5 amended witness: on a 200 response with status "succeeded", null
error and predict_time 6/5, detection succeeds with the expected
record. -/
theorem detect_contract_witness :
    detectAge (some "img") 200 ⟨"34", "succeeded", none, 6 / 5⟩ =
      Except.ok ⟨"34", 6 / 5, "img"⟩ :=
  ((detect_contract "img" (by decide) 200
      ⟨"34", "succeeded", none, 6 / 5⟩).1 ⟨"34", 6 / 5, "img"⟩).mpr
    ⟨by decide, rfl, rfl, rfl⟩

/-! ## Claim theorems: orchestrator atomicity -/

/-- C6: Atomicity on remote failure.  In `processImage`, if the
detection call fails, or the upload call fails (with no cached upload
url), the history store is exactly what it was before the attempt and
the terminal state is `error`; more generally any non-`success` outcome
leaves the store untouched, and a `success` outcome appends exactly the
record built from the successful detection result.  Likewise
`captureScreenshot` leaves the store untouched on a non-success HTTP
status and appends only on success. -/
theorem remote_failure_atomicity
    (p : AgeDetectionHistoryItem → Bool) (q : ScreenshotItem → Bool)
    (wOk : Bool) (st : Store AgeDetectionHistoryItem)
    (st2 : Store ScreenshotItem) (cachedUrl imageData : Option String)
    (upStatus : Nat) (upBody : UploadResp) (detStatus : Nat)
    (detBody : AgeDetectionResponse) (now : String) (validUrl : Bool)
    (apiKey : String) (capStatus : Nat) (blobB64 url now2 : String) :
    ((processImage p wOk st cachedUrl imageData upStatus upBody detStatus
        detBody now).2 ≠ ProcessingState.success →
      (processImage p wOk st cachedUrl imageData upStatus upBody detStatus
        detBody now).1 = st) ∧
    (∀ m, detectAge imageData detStatus detBody = Except.error m →
      processImage p wOk st cachedUrl imageData upStatus upBody detStatus
        detBody now = (st, ProcessingState.error)) ∧
    (cachedUrl = none →
      ∀ m, uploadImage upStatus upBody = Except.error m →
      processImage p wOk st cachedUrl imageData upStatus upBody detStatus
        detBody now = (st, ProcessingState.error)) ∧
    ((processImage p wOk st cachedUrl imageData upStatus upBody detStatus
        detBody now).2 = ProcessingState.success →
      ∃ r, detectAge imageData detStatus detBody = Except.ok r ∧
        (processImage p wOk st cachedUrl imageData upStatus upBody
          detStatus detBody now).1 =
          (saveToStorage p wOk st AGE_DETECTION_STORAGE_KEY
            ⟨r.age, r.predictTime, r.imageData, now⟩).2) ∧
    (isSuccessStatus capStatus = false →
      (captureScreenshot q wOk st2 validUrl apiKey capStatus blobB64 url
        now2).1 = st2) ∧
    ((captureScreenshot q wOk st2 validUrl apiKey capStatus blobB64 url
        now2).2 = ScreenshotState.success →
      (captureScreenshot q wOk st2 validUrl apiKey capStatus blobB64 url
        now2).1 =
        (saveToStorage q wOk st2 STORAGE_KEY ⟨url, blobB64, now2⟩).2) := by
  refine ⟨?_, ?_, ?_, ?_, ?_, ?_⟩
  · intro hns
    cases hcu : cachedUrl with
    | some u =>
      cases hdet : detectAge imageData detStatus detBody with
      | error m => simp [processImage, hcu, hdet]
      | ok r =>
        exfalso
        exact hns (by simp [processImage, hcu, hdet])
    | none =>
      cases hup : uploadImage upStatus upBody with
      | error m => simp [processImage, hcu, hup]
      | ok u =>
        cases hdet : detectAge imageData detStatus detBody with
        | error m => simp [processImage, hcu, hup, hdet]
        | ok r =>
          exfalso
          exact hns (by simp [processImage, hcu, hup, hdet])
  · intro m hdet
    cases hcu : cachedUrl with
    | some u => simp [processImage, hcu, hdet]
    | none =>
      cases hup : uploadImage upStatus upBody with
      | error m2 => simp [processImage, hcu, hup]
      | ok u => simp [processImage, hcu, hup, hdet]
  · intro hcu m hup
    simp [processImage, hcu, hup]
  · intro hsucc
    cases hcu : cachedUrl with
    | some u =>
      cases hdet : detectAge imageData detStatus detBody with
      | error m =>
        rw [show processImage p wOk st cachedUrl imageData upStatus upBody
            detStatus detBody now = (st, ProcessingState.error) by
          simp [processImage, hcu, hdet]] at hsucc
        exact absurd hsucc (by simp)
      | ok r =>
        exact ⟨r, rfl, by simp [processImage, hcu, hdet]⟩
    | none =>
      cases hup : uploadImage upStatus upBody with
      | error m =>
        rw [show processImage p wOk st cachedUrl imageData upStatus upBody
            detStatus detBody now = (st, ProcessingState.error) by
          simp [processImage, hcu, hup]] at hsucc
        exact absurd hsucc (by simp)
      | ok u =>
        cases hdet : detectAge imageData detStatus detBody with
        | error m =>
          rw [show processImage p wOk st cachedUrl imageData upStatus
              upBody detStatus detBody now = (st, ProcessingState.error) by
            simp [processImage, hcu, hup, hdet]] at hsucc
          exact absurd hsucc (by simp)
        | ok r =>
          exact ⟨r, rfl, by simp [processImage, hcu, hup, hdet]⟩
  · intro hcap
    by_cases hguard : (!validUrl || apiKey.trim = "") = true
    · simp [captureScreenshot, hguard]
    · simp [captureScreenshot, hguard, hcap]
  · intro hsucc
    by_cases hguard : (!validUrl || apiKey.trim = "") = true
    · rw [show (captureScreenshot q wOk st2 validUrl apiKey capStatus
          blobB64 url now2).2 = ScreenshotState.idle by
        simp [captureScreenshot, hguard]] at hsucc
      exact absurd hsucc (by simp)
    · by_cases hcap : isSuccessStatus capStatus = true
      · simp [captureScreenshot, hguard, hcap]
      · rw [Bool.not_eq_true] at hcap
        rw [show (captureScreenshot q wOk st2 validUrl apiKey capStatus
            blobB64 url now2).2 = ScreenshotState.error by
          simp [captureScreenshot, hguard, hcap]] at hsucc
        exact absurd hsucc (by simp)

/-- C6 witness: with a fresh store, no cached url and an HTTP 500 from
the upload endpoint, `processImage` ends in the error state with the
store exactly as before; a 500 on the screenshot endpoint likewise
leaves its store untouched. -/
theorem remote_failure_atomicity_witness :
    processImage (fun _ => true) true emptyStore none (some "img") 500
      ⟨"OK", some "x"⟩ 200 ⟨"34", "succeeded", none, 1⟩ "t" =
      (emptyStore, ProcessingState.error) ∧
    (captureScreenshot (fun _ => true) true emptyStore true "key" 500
      "blob" "https://e.com" "t").1 = emptyStore :=
  ⟨(remote_failure_atomicity (fun _ => true) (fun _ => true) true
      emptyStore emptyStore none (some "img") 500 ⟨"OK", some "x"⟩ 200
      ⟨"34", "succeeded", none, 1⟩ "t" true "key" 500 "blob"
      "https://e.com" "t").2.2.1 rfl ("Upload failed: 500") rfl,
   (remote_failure_atomicity (fun _ => true) (fun _ => true) true
      emptyStore emptyStore none (some "img") 500 ⟨"OK", some "x"⟩ 200
      ⟨"34", "succeeded", none, 1⟩ "t" true "key" 500 "blob"
      "https://e.com" "t").2.2.2.2.1 (by decide)⟩

end ApiMarket
